import Mathlib

/-!
Verification of the Hybrid Retrieval Engine of `local_agent_team` against its
natural-language specification.

The repository ships the engine only as a design plan (`Future RAG Integration
Plan`) together with its frontend callers; the backend module bodies
(`backend/rag/document_processor.py`, `backend/rag/vector_store.py`,
`backend/rag/hybrid_search.py`) are not present in the source tree.  The engine
definitions below are therefore modelled from the specification, faithful to
its words and to the configuration constants recorded in the plan
(`CHUNK_SIZE=1000`, `CHUNK_OVERLAP=200`, `HYBRID_WEIGHT_DOCS=0.6`,
`HYBRID_WEIGHT_WEB=0.4`).  The two frontend components
(`SearchModeSelector.js`, `DocumentUpload.js`) are real source files and are
embedded directly from the code.

Texts are modelled as lists of characters, scores as rationals.
-/

/-- Modelled from the spec: the Chunker (`backend/rag/document_processor.py` is
absent from the tree).  `chunk text chunkSize overlap` splits `text` into
fixed-size spans of `chunkSize` characters advancing by `chunkSize - overlap`,
so consecutive chunks share `overlap` characters; a final shorter remainder
becomes the last chunk; empty text yields an empty sequence.  The degenerate
configuration `chunkSize ≤ overlap` returns the whole text as one chunk. -/
def chunk (chunkSize overlap : ℕ) (text : List Char) : List (List Char) :=
  if _h0 : text.length = 0 then []
  else if _h1 : text.length ≤ chunkSize ∨ chunkSize ≤ overlap then [text]
  else text.take chunkSize :: chunk chunkSize overlap (text.drop (chunkSize - overlap))
termination_by text.length
decreasing_by
  simp only [List.length_drop]
  omega

/-- Modelled from the spec: removing the overlapping characters when
concatenating — the first chunk is kept whole, every later chunk contributes
its text minus the `overlap` characters it shares with its predecessor. -/
def joinOverlap (overlap : ℕ) : List (List Char) → List Char
  | [] => []
  | c :: cs => c ++ (cs.map (List.drop overlap)).flatten

/-- Modelled from the spec: configuration of the Confidence Scorer
(`backend/rag/hybrid_search.py` is absent from the tree).  The combination
weights are configuration, not hard law; the sufficiency threshold and the
minimum top-similarity floor default to `0.4` (the documented 40% similarity
floor). -/
structure ScorerConfig where
  topN : ℕ
  wTop : ℚ
  wMean : ℚ
  wSpread : ℚ
  threshold : ℚ
  minTopSimilarity : ℚ
deriving DecidableEq

/-- Default scorer configuration: top-N of 3, weights 0.5/0.4/0.1, threshold
0.4, top-similarity floor 0.4. -/
def defaultScorerConfig : ScorerConfig :=
  ⟨3, 1 / 2, 2 / 5, 1 / 10, 2 / 5, 2 / 5⟩

/-- Clamp a rational to the unit interval. -/
def clamp01 (x : ℚ) : ℚ := max 0 (min 1 x)

/-- Arithmetic mean of a list of rationals (0 for the empty list, since
`x / 0 = 0` in `ℚ`). -/
def mean (xs : List ℚ) : ℚ := xs.sum / (xs.length : ℚ)

/-- The scorer's output: sufficiency score, the boolean "documents alone
suffice" decision, and the threshold used. -/
structure ConfidenceAssessment where
  confidence : ℚ
  sufficient : Bool
  threshold : ℚ
deriving DecidableEq

/-- Modelled from the spec: `assess(query, documentHits)`.  Document hits are
given by their similarity scores, highest first (the Vector Index contract).
The confidence is a weighted combination of the top similarity, the mean of
the top-N similarities and the spread between hit 1 and hit 2, clamped to
`[0,1]`; sufficiency requires both `confidence ≥ threshold` and the top
similarity strictly above the floor; zero hits yield confidence 0 and
sufficiency `false`. -/
def assess (cfg : ScorerConfig) (documentHits : List ℚ) : ConfidenceAssessment :=
  match documentHits with
  | [] => ⟨0, false, cfg.threshold⟩
  | top :: rest =>
      let spread := top - rest.headD top
      let raw := cfg.wTop * top + cfg.wMean * mean ((top :: rest).take cfg.topN)
        + cfg.wSpread * spread
      let conf := clamp01 raw
      ⟨conf, decide (cfg.threshold ≤ conf ∧ cfg.minTopSimilarity < top), cfg.threshold⟩

/-- Tag of a fused hit: document chunk or web page. -/
inductive HitSource where
  | document
  | web
deriving DecidableEq

/-- A hit in a fused result: its source tag and its final (weighted,
normalized) score. -/
structure FusedHit where
  source : HitSource
  score : ℚ
deriving DecidableEq

/-- Minimum of a list of rationals (0 for the empty list). -/
def listMin : List ℚ → ℚ
  | [] => 0
  | x :: xs => xs.foldl min x

/-- Maximum of a list of rationals (0 for the empty list). -/
def listMax : List ℚ → ℚ
  | [] => 0
  | x :: xs => xs.foldl max x

/-- Modelled from the spec: min-max normalization of one source's scores to
`[0,1]` before cross-source comparison.  A flat score distribution (all scores
equal, in particular a single hit) maps to 1. -/
def minMaxNormalize (xs : List ℚ) : List ℚ :=
  match xs with
  | [] => []
  | _ :: _ =>
      let lo := listMin xs
      let hi := listMax xs
      if hi = lo then xs.map (fun _ => 1)
      else xs.map (fun x => (x - lo) / (hi - lo))

/-- Per-source fusion weights. -/
structure FusionWeights where
  docWeight : ℚ
  webWeight : ℚ
deriving DecidableEq

/-- Fusion configuration: the maximum document weight and the web floor
(`HYBRID_WEIGHT_DOCS=0.6`, `HYBRID_WEIGHT_WEB=0.4` in the plan's
configuration). -/
structure FusionConfig where
  maxDocWeight : ℚ
  webFloor : ℚ
deriving DecidableEq

/-- Default fusion configuration: document weight capped at 0.6, web floor
0.4. -/
def defaultFusionConfig : FusionConfig := ⟨3 / 5, 2 / 5⟩

/-- Modelled from the spec: the orchestrator picks fusion weights from the
Confidence Scorer's output — higher document confidence means higher document
weight, capped at the configured maximum; the web weight never falls below the
configured floor. -/
def chooseWeights (cfg : FusionConfig) (confidence : ℚ) : FusionWeights :=
  let d := min (clamp01 confidence) cfg.maxDocWeight
  ⟨d, max (1 - d) cfg.webFloor⟩

/-- Descending-score comparison used to order fused results. -/
def scoreDescBool (a b : FusedHit) : Bool := decide (b.score ≤ a.score)

/-- Modelled from the spec: `fuse(documentHits, webHits, weights)`.  Hits are
given by their raw scores; each source is independently min-max normalized to
`[0,1]`, each hit's final score is `sourceWeight[source] * normalizedScore`,
and the merged list is ordered by descending fused score. -/
def fuse (documentHits webHits : List ℚ) (w : FusionWeights) : List FusedHit :=
  let d := (minMaxNormalize documentHits).map
    (fun n => FusedHit.mk HitSource.document (w.docWeight * n))
  let wb := (minMaxNormalize webHits).map
    (fun n => FusedHit.mk HitSource.web (w.webWeight * n))
  (d ++ wb).mergeSort scoreDescBool

/-- The four search modes of the Hybrid Search Orchestrator. -/
inductive SearchMode where
  | auto
  | hybrid
  | documents
  | web
deriving DecidableEq

/-- The web-search failure the orchestrator tolerates. -/
inductive WebSearchTimeout where
  | timeout
deriving DecidableEq

/-- Engine configuration: scorer and fusion configuration. -/
structure EngineConfig where
  scorer : ScorerConfig
  fusion : FusionConfig
deriving DecidableEq

/-- Default engine configuration. -/
def defaultEngineConfig : EngineConfig := ⟨defaultScorerConfig, defaultFusionConfig⟩

/-- The orchestrator's answer: the ranked entries and the number of times the
external `webSearch` function was invoked while answering the query. -/
structure SearchResult where
  entries : List FusedHit
  webCalls : ℕ
deriving DecidableEq

/-- Modelled from the spec: the guarded web-search call.  A timeout of the
external call is treated as zero web hits, never surfaced as an error. -/
def runWebSearch (outcome : Except WebSearchTimeout (List ℚ)) : List ℚ :=
  match outcome with
  | .ok hits => hits
  | .error _ => []

/-- The document-only result: the document hits tagged `document` and ranked
by descending score, with no web entries. -/
def docOnlyResult (documentHits : List ℚ) : List FusedHit :=
  (documentHits.map (fun s => FusedHit.mk HitSource.document s)).mergeSort scoreDescBool

/-- Modelled from the spec: the Hybrid Search Orchestrator,
`search(query, mode)`.  The query is represented by its derived data: the
document hits returned by the Vector Index for the query (similarities,
highest first) and the outcome the external `webSearch` function would
produce if invoked.  `documents` never touches the web; `web` skips document
retrieval; `hybrid` always queries both and fuses; `auto` queries documents
first and escalates to `hybrid` behaviour only when the Confidence Scorer
denies sufficiency. -/
def search (cfg : EngineConfig) (mode : SearchMode) (documentHits : List ℚ)
    (webOutcome : Except WebSearchTimeout (List ℚ)) : SearchResult :=
  match mode with
  | .documents => ⟨docOnlyResult documentHits, 0⟩
  | .web => ⟨fuse [] (runWebSearch webOutcome) (chooseWeights cfg.fusion 0), 1⟩
  | .hybrid =>
      let a := assess cfg.scorer documentHits
      ⟨fuse documentHits (runWebSearch webOutcome) (chooseWeights cfg.fusion a.confidence), 1⟩
  | .auto =>
      let a := assess cfg.scorer documentHits
      if a.sufficient then ⟨docOnlyResult documentHits, 0⟩
      else ⟨fuse documentHits (runWebSearch webOutcome) (chooseWeights cfg.fusion a.confidence), 1⟩

/-- The durable state of the engine: the Document Store (chunks per document
id) and the Vector Index (one vector per chunk, keyed by document id). -/
structure RagState where
  store : List (ℕ × List (List Char))
  index : List (ℕ × List (List ℚ))
deriving DecidableEq

/-- Modelled from the spec: `ingest(documentId, rawText)`.  `embed` is the
black-box embedding function.  Re-ingesting a document id replaces the prior
chunks and vectors for that id in both the store and the index. -/
def ingest (embed : List Char → List ℚ) (C O : ℕ) (documentId : ℕ)
    (rawText : List Char) (st : RagState) : RagState :=
  let cs := chunk C O rawText
  ⟨(documentId, cs) :: st.store.filter (fun e => e.1 ≠ documentId),
    (documentId, cs.map embed) :: st.index.filter (fun e => e.1 ≠ documentId)⟩

/-- All chunks recorded in the Document Store for a document id. -/
def storedChunks (documentId : ℕ) (st : RagState) : List (List Char) :=
  ((st.store.filter (fun e => e.1 = documentId)).map Prod.snd).flatten

/-- All vectors recorded in the Vector Index for a document id. -/
def indexedVectors (documentId : ℕ) (st : RagState) : List (List ℚ) :=
  ((st.index.filter (fun e => e.1 = documentId)).map Prod.snd).flatten

/-- One entry of the `modes` array of `SearchModeSelector.js`: the mode id and
its availability flag. -/
structure ModeSpec where
  id : SearchMode
  available : Bool
deriving DecidableEq

/-- Embedded from `SearchModeSelector.js` lines 11–44: the `modes` array.
`auto` and `web` are always available; `hybrid` and `documents` carry
`available: documentCount > 0`. -/
def modes (documentCount : ℕ) : List ModeSpec :=
  [⟨SearchMode.auto, true⟩,
   ⟨SearchMode.hybrid, decide (documentCount > 0)⟩,
   ⟨SearchMode.documents, decide (documentCount > 0)⟩,
   ⟨SearchMode.web, true⟩]

/-- Embedded from `SearchModeSelector.js` line 10: the `documentCount` prop
defaults to 0. -/
def defaultDocumentCount : ℕ := 0

/-- Embedded from `SearchModeSelector.js` line 91:
`onClick = () => isAvailable && onSearchModeChange(mode.id)` — the callback is
invoked with the mode id exactly when the mode is available, by the
short-circuit semantics of `&&`. -/
def clickOutcome (m : ModeSpec) : Option SearchMode :=
  if m.available then some m.id else none

/-- The selected mode after clicking the button of `m`: the parent's state
changes only when the callback fired. -/
def selectedAfterClick (current : SearchMode) (m : ModeSpec) : SearchMode :=
  (clickOutcome m).getD current

/-- A file dropped on the `DocumentUpload` dropzone, by its MIME type and
byte size. -/
structure DroppedFile where
  mime : String
  size : ℕ
deriving DecidableEq

/-- Embedded from `DocumentUpload.js` lines 101–106: the `accept` map of
`useDropzone` — PDF, plain text, markdown and docx MIME types. -/
def acceptedMimeTypes : List String :=
  ["application/pdf", "text/plain", "text/markdown",
   "application/vnd.openxmlformats-officedocument.wordprocessingml.document"]

/-- Embedded from `DocumentUpload.js` line 107: `maxSize: 50 * 1024 * 1024`. -/
def maxUploadSize : ℕ := 50 * 1024 * 1024

/-- The dropzone's acceptance test (react-dropzone semantics for the `accept`
and `maxSize` options): a file is accepted iff its MIME type is in the accept
map and its size is at most `maxSize`. -/
def dropzoneAccepts (f : DroppedFile) : Bool :=
  decide (f.mime ∈ acceptedMimeTypes) && decide (f.size ≤ maxUploadSize)

/-- Embedded from `DocumentUpload.js` lines 35–97: `onDrop` issues one upload
POST per accepted file; rejected files never reach `onDrop`, so no POST is
issued for them. -/
def uploadPosts (dropped : List DroppedFile) : List DroppedFile :=
  dropped.filter dropzoneAccepts

/-- Dropping `overlap` characters from every chunk of `chunk` reassembles the
tail of the text.  Auxiliary to the losslessness theorem; the outer induction
is on an explicit length bound. -/
theorem joinAll_chunk_drop (C O : ℕ) :
    ∀ (n : ℕ) (s : List Char), s.length ≤ n →
      ((chunk C O s).map (List.drop O)).flatten = s.drop O := by
  intro n
  induction n with
  | zero =>
    intro s hs
    have : s.length = 0 := Nat.le_zero.mp hs
    rw [chunk, dif_pos this]
    simp_all
  | succ n ih =>
    intro s hs
    rw [chunk]
    split
    · simp_all
    · split
      · simp
      · rename_i h0 h1
        push_neg at h1
        have hrec := ih (s.drop (C - O)) (by simp; omega)
        simp only [List.map_cons, List.flatten_cons, hrec]
        rw [List.drop_drop, List.drop_take]
        have h2 : C - O + O = C := by omega
        rw [h2]
        conv_rhs => rw [← List.take_append_drop (C - O) (s.drop O)]
        congr 1
        rw [List.drop_drop]
        congr 1
        omega

/-- C4 — Chunking is lossless modulo overlap: for every text, chunk size and
overlap, concatenating the chunks returned by `chunk` with the overlapping
characters removed reproduces the original text exactly. -/
theorem chunk_lossless (C O : ℕ) (s : List Char) :
    joinOverlap O (chunk C O s) = s := by
  rw [chunk]
  split
  · simp_all [joinOverlap]
  · split
    · simp [joinOverlap]
    · rename_i h0 h1
      push_neg at h1
      simp only [joinOverlap, joinAll_chunk_drop C O (s.drop (C - O)).length _ le_rfl]
      rw [List.drop_drop]
      have h2 : C - O + O = C := by omega
      rw [h2, List.take_append_drop]

/-- Auxiliary chunk-count computation, by induction on an explicit length
bound: for a non-degenerate configuration `O < C` and non-empty text the
number of chunks is `1` when the text fits in one chunk and otherwise the
ceiling of `(L - O) / (C - O)`, written with natural division as
`(L - O + (C - O) - 1) / (C - O)`. -/
theorem chunk_count_aux (C O : ℕ) (hO : O < C) :
    ∀ (n : ℕ) (s : List Char), s.length ≤ n → s ≠ [] →
      (chunk C O s).length =
        if s.length ≤ C then 1 else (s.length - O + (C - O) - 1) / (C - O) := by
  intro n
  induction n with
  | zero =>
    intro s hs hne
    simp_all
  | succ n ih =>
    intro s hs hne
    rw [chunk]
    split
    · simp_all
    · rename_i h0
      split
      · rename_i hcase
        rcases hcase with h | h
        · rw [if_pos h]
          simp
        · omega
      · rename_i h1
        push_neg at h1
        rw [if_neg (by omega)]
        have hlen : (s.drop (C - O)).length = s.length - (C - O) := by simp
        have hpos : 0 < s.length - (C - O) := by omega
        have hne2 : s.drop (C - O) ≠ [] := by
          intro hc
          rw [hc] at hlen
          simp at hlen
          omega
        have hrec := ih (s.drop (C - O)) (by simp; omega) hne2
        rw [List.length_cons, hrec, hlen]
        by_cases hsm : s.length - (C - O) ≤ C
        · rw [if_pos hsm]
          have h2 : (s.length - O + (C - O) - 1) / (C - O) = 2 :=
            Nat.div_eq_of_lt_le (by omega) (by omega)
          omega
        · rw [if_neg hsm]
          have h4 : s.length - O + (C - O) - 1
              = (s.length - (C - O) - O + (C - O) - 1) + (C - O) := by omega
          rw [h4, Nat.add_div_right _ (by omega : 0 < C - O)]

/-- C5 (amended) — for a non-empty document of length `L`, chunked with
`O < C`, the number of chunks equals `ceil((L - O) / (C - O))` when `L > C`
and `1` otherwise; the empty document yields `0` chunks (see the
counterexample to the original statement). -/
theorem chunk_count (C O : ℕ) (s : List Char) (hO : O < C) (hs : s ≠ []) :
    (chunk C O s).length =
      if s.length ≤ C then 1 else (s.length - O + (C - O) - 1) / (C - O) :=
  chunk_count_aux C O hO s.length s le_rfl hs

/-- C5 counterexample — the claim asserts one chunk whenever `L ≤ C`, but the
code-backed guarantee is that empty text yields an empty sequence: at
`L = 0`, `C = 1000`, `O = 200` the chunker returns `0` chunks, not `1`. -/
theorem chunk_count_empty_counterexample :
    (chunk 1000 200 ([] : List Char)).length = 0 ∧
    ¬ ((chunk 1000 200 ([] : List Char)).length = 1) := by
  rw [chunk]
  simp

/-- Witness for C5 at a concrete input: eight characters, chunk size 5,
overlap 2 give `ceil((8 - 2) / 3) = 2` chunks. -/
theorem chunk_count_witness :
    (2 : ℕ) < 5 ∧ (['a', 'b', 'c', 'd', 'e', 'f', 'g', 'h'] : List Char) ≠ [] ∧
    (chunk 5 2 ['a', 'b', 'c', 'd', 'e', 'f', 'g', 'h']).length =
      if (['a', 'b', 'c', 'd', 'e', 'f', 'g', 'h'] : List Char).length ≤ 5 then 1
      else ((['a', 'b', 'c', 'd', 'e', 'f', 'g', 'h'] : List Char).length - 2 + (5 - 2) - 1) / (5 - 2) :=
  ⟨by omega, by simp, chunk_count 5 2 _ (by omega) (by simp)⟩

/-- Folding `min` is bounded by the initial value and by every list element. -/
theorem foldl_min_le (xs : List ℚ) :
    ∀ (a : ℚ), xs.foldl min a ≤ a ∧ ∀ x ∈ xs, xs.foldl min a ≤ x := by
  induction xs with
  | nil => simp
  | cons y ys ih =>
    intro a
    refine ⟨le_trans (ih (min a y)).1 (min_le_left a y), ?_⟩
    intro x hx
    rcases List.mem_cons.mp hx with rfl | hx
    · exact le_trans (ih (min a x)).1 (min_le_right a x)
    · exact (ih (min a y)).2 x hx

/-- Folding `max` dominates the initial value and every list element. -/
theorem le_foldl_max (xs : List ℚ) :
    ∀ (a : ℚ), a ≤ xs.foldl max a ∧ ∀ x ∈ xs, x ≤ xs.foldl max a := by
  induction xs with
  | nil => simp
  | cons y ys ih =>
    intro a
    refine ⟨le_trans (le_max_left a y) (ih (max a y)).1, ?_⟩
    intro x hx
    rcases List.mem_cons.mp hx with rfl | hx
    · exact le_trans (le_max_right a x) (ih (max a x)).1
    · exact (ih (max a y)).2 x hx

/-- The value `listMin` is a lower bound of the list. -/
theorem listMin_le_mem (xs : List ℚ) (x : ℚ) (hx : x ∈ xs) : listMin xs ≤ x := by
  cases xs with
  | nil => simp at hx
  | cons y ys =>
    rcases List.mem_cons.mp hx with rfl | hx
    · exact (foldl_min_le ys x).1
    · exact (foldl_min_le ys y).2 x hx

/-- The value `listMax` is an upper bound of the list. -/
theorem mem_le_listMax (xs : List ℚ) (x : ℚ) (hx : x ∈ xs) : x ≤ listMax xs := by
  cases xs with
  | nil => simp at hx
  | cons y ys =>
    rcases List.mem_cons.mp hx with rfl | hx
    · exact (le_foldl_max ys x).1
    · exact (le_foldl_max ys y).2 x hx

/-- Every element of a min-max normalized list lies in the unit interval. -/
theorem minMaxNormalize_mem_bounds (xs : List ℚ) :
    ∀ n ∈ minMaxNormalize xs, 0 ≤ n ∧ n ≤ 1 := by
  intro n hn
  cases xs with
  | nil => simp [minMaxNormalize] at hn
  | cons y ys =>
    simp only [minMaxNormalize] at hn
    split at hn
    · obtain ⟨x, _, rfl⟩ := List.mem_map.mp hn
      norm_num
    · rename_i hne
      obtain ⟨x, hx, rfl⟩ := List.mem_map.mp hn
      have hlo := listMin_le_mem (y :: ys) x hx
      have hhi := mem_le_listMax (y :: ys) x hx
      have hlohi : listMin (y :: ys) ≤ listMax (y :: ys) := le_trans hlo hhi
      have hpos : 0 < listMax (y :: ys) - listMin (y :: ys) := by
        rcases lt_or_eq_of_le hlohi with h | h
        · linarith
        · exact absurd h.symm hne
      constructor
      · apply div_nonneg (by linarith) (le_of_lt hpos)
      · rw [div_le_one hpos]
        linarith

/-- Membership in a fused result is membership in one of the two weighted,
normalized source lists. -/
theorem mem_fuse_iff (documentHits webHits : List ℚ) (w : FusionWeights)
    (h : FusedHit) :
    h ∈ fuse documentHits webHits w ↔
      h ∈ (minMaxNormalize documentHits).map
            (fun n => FusedHit.mk HitSource.document (w.docWeight * n)) ∨
      h ∈ (minMaxNormalize webHits).map
            (fun n => FusedHit.mk HitSource.web (w.webWeight * n)) := by
  unfold fuse
  rw [List.mem_mergeSort, List.mem_append]

/-- C1 — `assess` returns a confidence in `[0,1]`; for a non-empty hit list
the sufficiency decision is true exactly when the confidence reaches the
configured threshold and the top similarity strictly exceeds the minimum
floor; zero document hits always yield confidence 0 and sufficiency false. -/
theorem assess_spec (cfg : ScorerConfig) (documentHits : List ℚ) :
    0 ≤ (assess cfg documentHits).confidence ∧
    (assess cfg documentHits).confidence ≤ 1 ∧
    (documentHits = [] →
      (assess cfg documentHits).confidence = 0 ∧
      (assess cfg documentHits).sufficient = false) ∧
    (documentHits ≠ [] →
      ((assess cfg documentHits).sufficient = true ↔
        cfg.threshold ≤ (assess cfg documentHits).confidence ∧
        cfg.minTopSimilarity < documentHits.headD 0)) := by
  cases documentHits with
  | nil => simp [assess]
  | cons top rest =>
    refine ⟨?_, ?_, by simp, fun _ => ?_⟩
    · exact le_max_left _ _
    · exact max_le (by norm_num) (min_le_left _ _)
    · simp only [assess, List.headD_cons, decide_eq_true_eq]

/-- Witness for C1: a single strong hit is assessed sufficient, and the
sufficiency decision matches the threshold-and-floor test. -/
theorem assess_spec_witness :
    (([9 / 10] : List ℚ) ≠ []) ∧
    ((assess defaultScorerConfig [9 / 10]).sufficient = true ↔
      defaultScorerConfig.threshold ≤ (assess defaultScorerConfig [9 / 10]).confidence ∧
      defaultScorerConfig.minTopSimilarity < ([9 / 10] : List ℚ).headD 0) :=
  ⟨by simp, (assess_spec defaultScorerConfig [9 / 10]).2.2.2 (by simp)⟩

/-- C3 — the orchestrator-chosen document weight never exceeds the configured
maximum and the web weight never falls below the configured floor, for every
confidence value; every hit of a fused result scores
`sourceWeight[source] * n` for some score `n` of its own source normalized to
`[0,1]`. -/
theorem fuse_weight_cap (cfgF : FusionConfig) (confidence : ℚ)
    (documentHits webHits : List ℚ) :
    (chooseWeights cfgF confidence).docWeight ≤ cfgF.maxDocWeight ∧
    cfgF.webFloor ≤ (chooseWeights cfgF confidence).webWeight ∧
    ∀ h ∈ fuse documentHits webHits (chooseWeights cfgF confidence),
      (h.source = HitSource.document →
        ∃ n ∈ minMaxNormalize documentHits,
          0 ≤ n ∧ n ≤ 1 ∧
          h.score = (chooseWeights cfgF confidence).docWeight * n) ∧
      (h.source = HitSource.web →
        ∃ n ∈ minMaxNormalize webHits,
          0 ≤ n ∧ n ≤ 1 ∧
          h.score = (chooseWeights cfgF confidence).webWeight * n) := by
  refine ⟨min_le_right _ _, le_max_right _ _, ?_⟩
  intro h hmem
  rw [mem_fuse_iff] at hmem
  rcases hmem with hd | hw
  · obtain ⟨n, hn, rfl⟩ := List.mem_map.mp hd
    have hb := minMaxNormalize_mem_bounds documentHits n hn
    exact ⟨fun _ => ⟨n, hn, hb.1, hb.2, rfl⟩, fun hc => by simp at hc⟩
  · obtain ⟨n, hn, rfl⟩ := List.mem_map.mp hw
    have hb := minMaxNormalize_mem_bounds webHits n hn
    exact ⟨fun hc => by simp at hc, fun _ => ⟨n, hn, hb.1, hb.2, rfl⟩⟩

/-- Witness for C3: a single document hit is normalized to 1 and fused with
the capped document weight `0.6`. -/
theorem fuse_weight_cap_witness :
    (FusedHit.mk HitSource.document (3 / 5) ∈
      fuse [1 / 2] [] (chooseWeights defaultFusionConfig 1)) ∧
    ∃ n ∈ minMaxNormalize [1 / 2],
      0 ≤ n ∧ n ≤ 1 ∧
      (FusedHit.mk HitSource.document (3 / 5)).score =
        (chooseWeights defaultFusionConfig 1).docWeight * n := by
  have hmem : FusedHit.mk HitSource.document (3 / 5) ∈
      fuse [1 / 2] [] (chooseWeights defaultFusionConfig 1) := by
    simp [fuse, minMaxNormalize, listMin, listMax, chooseWeights, clamp01,
      defaultFusionConfig]
    norm_num
  exact ⟨hmem,
    ((fuse_weight_cap defaultFusionConfig 1 [1 / 2] []).2.2 _ hmem).1 rfl⟩

/-- Every entry of a document-only result is tagged `document`. -/
theorem docOnlyResult_sources (documentHits : List ℚ) :
    ∀ h ∈ docOnlyResult documentHits, h.source = HitSource.document := by
  intro h hm
  unfold docOnlyResult at hm
  rw [List.mem_mergeSort] at hm
  obtain ⟨s, _, rfl⟩ := List.mem_map.mp hm
  rfl

/-- Fusing against zero web hits produces only document-tagged entries. -/
theorem fuse_no_web_sources (documentHits : List ℚ) (w : FusionWeights) :
    ∀ h ∈ fuse documentHits [] w, h.source = HitSource.document := by
  intro h hm
  rw [mem_fuse_iff] at hm
  rcases hm with hd | hw
  · obtain ⟨n, _, rfl⟩ := List.mem_map.mp hd
    rfl
  · simp [minMaxNormalize] at hw

/-- C2 — in `auto` mode the orchestrator queries documents first: when the
Confidence Scorer marks sufficiency it skips the web call (`webCalls = 0`) and
returns the document-only result, and otherwise it behaves exactly like
`hybrid` (queries the web and fuses both sources). -/
theorem search_auto_spec (cfg : EngineConfig) (documentHits : List ℚ)
    (webOutcome : Except WebSearchTimeout (List ℚ)) :
    ((assess cfg.scorer documentHits).sufficient = true →
      search cfg SearchMode.auto documentHits webOutcome
          = ⟨docOnlyResult documentHits, 0⟩ ∧
      (search cfg SearchMode.auto documentHits webOutcome).webCalls = 0 ∧
      ∀ h ∈ (search cfg SearchMode.auto documentHits webOutcome).entries,
        h.source = HitSource.document) ∧
    ((assess cfg.scorer documentHits).sufficient = false →
      search cfg SearchMode.auto documentHits webOutcome
          = search cfg SearchMode.hybrid documentHits webOutcome) := by
  constructor
  · intro hsuff
    have heq : search cfg SearchMode.auto documentHits webOutcome
        = ⟨docOnlyResult documentHits, 0⟩ := by
      simp [search, hsuff]
    refine ⟨heq, by rw [heq], ?_⟩
    rw [heq]
    exact docOnlyResult_sources documentHits
  · intro hinsuff
    simp [search, hinsuff]

/-- Witness for C2 at the spec's own example: three strong hits (0.92, 0.88,
0.85) are assessed sufficient in `auto` mode, no web call occurs and the
result is document-only. -/
theorem search_auto_witness :
    ((assess defaultEngineConfig.scorer [92 / 100, 88 / 100, 85 / 100]).sufficient = true) ∧
    search defaultEngineConfig SearchMode.auto [92 / 100, 88 / 100, 85 / 100]
        (Except.ok [1 / 2])
      = ⟨docOnlyResult [92 / 100, 88 / 100, 85 / 100], 0⟩ := by
  have hsuff : (assess defaultEngineConfig.scorer
      [92 / 100, 88 / 100, 85 / 100]).sufficient = true := by
    simp [assess, defaultEngineConfig, defaultScorerConfig, mean, clamp01]
    norm_num
  exact ⟨hsuff,
    ((search_auto_spec defaultEngineConfig [92 / 100, 88 / 100, 85 / 100]
      (Except.ok [1 / 2])).1 hsuff).1⟩

/-- C6 — in `documents` mode the orchestrator never invokes the external
`webSearch` function: the call count is 0 and the result does not depend on
what the web search would have returned, for every query and assessment. -/
theorem search_documents_no_web (cfg : EngineConfig) (documentHits : List ℚ)
    (webOutcome webOutcome2 : Except WebSearchTimeout (List ℚ)) :
    (search cfg SearchMode.documents documentHits webOutcome).webCalls = 0 ∧
    search cfg SearchMode.documents documentHits webOutcome
      = search cfg SearchMode.documents documentHits webOutcome2 := by
  simp [search]

/-- C8 — a timeout of the external web search in `auto` or `hybrid` mode is
treated as zero web hits, not surfaced as an error: the search returns exactly
the result it would return for an empty web hit list, and every entry it
returns is document-derived. -/
theorem search_timeout_degrades (cfg : EngineConfig) (documentHits : List ℚ) :
    (search cfg SearchMode.auto documentHits (Except.error WebSearchTimeout.timeout)
        = search cfg SearchMode.auto documentHits (Except.ok []) ∧
      ∀ h ∈ (search cfg SearchMode.auto documentHits
          (Except.error WebSearchTimeout.timeout)).entries,
        h.source = HitSource.document) ∧
    (search cfg SearchMode.hybrid documentHits (Except.error WebSearchTimeout.timeout)
        = search cfg SearchMode.hybrid documentHits (Except.ok []) ∧
      ∀ h ∈ (search cfg SearchMode.hybrid documentHits
          (Except.error WebSearchTimeout.timeout)).entries,
        h.source = HitSource.document) := by
  have hrun : runWebSearch (Except.error WebSearchTimeout.timeout) = ([] : List ℚ) := rfl
  have hok : runWebSearch (Except.ok ([] : List ℚ)) = ([] : List ℚ) := rfl
  constructor
  · constructor
    · simp [search, hrun, hok]
    · intro h hm
      simp only [search, hrun] at hm
      split at hm
      · exact docOnlyResult_sources documentHits h hm
      · exact fuse_no_web_sources documentHits _ h hm
  · constructor
    · simp [search, hrun, hok]
    · intro h hm
      simp only [search, hrun] at hm
      exact fuse_no_web_sources documentHits _ h hm

/-- C7 — `ingest` is idempotent per document id: re-ingesting the same id
replaces the prior chunks and vectors for that id, so ingesting twice equals
ingesting once with the latest text, and after an ingest the store and the
index hold exactly the latest ingestion's chunks and vectors for that id. -/
theorem ingest_idempotent (embed : List Char → List ℚ) (C O documentId : ℕ)
    (t1 t2 : List Char) (st : RagState) :
    ingest embed C O documentId t2 (ingest embed C O documentId t1 st)
        = ingest embed C O documentId t2 st ∧
    storedChunks documentId (ingest embed C O documentId t2 st) = chunk C O t2 ∧
    indexedVectors documentId (ingest embed C O documentId t2 st)
        = (chunk C O t2).map embed := by
  refine ⟨?_, ?_, ?_⟩
  · simp [ingest, List.filter_filter]
  · simp [storedChunks, ingest, List.filter_filter]
  · simp [indexedVectors, ingest, List.filter_filter]

/-- Witness for C8: with a single matched document hit, an `auto`-mode query
whose web search times out still returns that document-derived entry. -/
theorem search_timeout_witness :
    (FusedHit.mk HitSource.document (1 / 2) ∈
      (search defaultEngineConfig SearchMode.auto [1 / 2]
        (Except.error WebSearchTimeout.timeout)).entries) ∧
    (FusedHit.mk HitSource.document (1 / 2)).source = HitSource.document := by
  have hm : FusedHit.mk HitSource.document (1 / 2) ∈
      (search defaultEngineConfig SearchMode.auto [1 / 2]
        (Except.error WebSearchTimeout.timeout)).entries := by
    simp [search, assess, mean, clamp01, defaultEngineConfig, defaultScorerConfig,
      docOnlyResult]
    norm_num
  exact ⟨hm,
    (search_timeout_degrades defaultEngineConfig [1 / 2]).1.2 _ hm⟩

/-- C9 — in `SearchModeSelector`, `hybrid` and `documents` are available only
when `documentCount > 0` while `auto` and `web` are always available; the
click handler never invokes `onSearchModeChange` for an unavailable mode, so
the selected mode can change to `hybrid` or `documents` only when at least one
document exists. -/
theorem searchModeSelector_spec (documentCount : ℕ) (current : SearchMode)
    (m : ModeSpec) (hm : m ∈ modes documentCount) :
    ((m.id = SearchMode.hybrid ∨ m.id = SearchMode.documents) →
      (m.available = true ↔ 0 < documentCount)) ∧
    ((m.id = SearchMode.auto ∨ m.id = SearchMode.web) → m.available = true) ∧
    (m.available = false → selectedAfterClick current m = current) ∧
    ((selectedAfterClick current m = SearchMode.hybrid ∨
        selectedAfterClick current m = SearchMode.documents) →
      selectedAfterClick current m ≠ current → 0 < documentCount) := by
  simp only [modes, List.mem_cons, List.not_mem_nil, or_false] at hm
  rcases hm with rfl | rfl | rfl | rfl
  · simp [selectedAfterClick, clickOutcome]
  · by_cases hdc : 0 < documentCount <;>
      simp [selectedAfterClick, clickOutcome, hdc]
  · by_cases hdc : 0 < documentCount <;>
      simp [selectedAfterClick, clickOutcome, hdc]
  · simp [selectedAfterClick, clickOutcome]

/-- Witness for C9: with one document uploaded, the `hybrid` button is
available, and availability is equivalent to a positive document count. -/
theorem searchModeSelector_witness :
    (ModeSpec.mk SearchMode.hybrid true ∈ modes 1) ∧
    ((ModeSpec.mk SearchMode.hybrid true).available = true ↔ 0 < 1) :=
  ⟨by decide,
    (searchModeSelector_spec 1 SearchMode.auto _ (by decide)).1 (Or.inl rfl)⟩

/-- C10 — the `DocumentUpload` dropzone accepts exactly the files whose MIME
type is PDF, plain text, markdown or docx and whose size is at most
`50 * 1024 * 1024` bytes; a dropped file outside these constraints is never
among the files for which an upload POST is issued. -/
theorem documentUpload_accept_spec (f : DroppedFile) (dropped : List DroppedFile) :
    (dropzoneAccepts f = true ↔
      f.mime ∈ acceptedMimeTypes ∧ f.size ≤ 50 * 1024 * 1024) ∧
    (f ∈ uploadPosts dropped ↔ f ∈ dropped ∧ dropzoneAccepts f = true) ∧
    (dropzoneAccepts f = false → f ∉ uploadPosts dropped) := by
  refine ⟨?_, ?_, ?_⟩
  · simp [dropzoneAccepts, maxUploadSize]
  · simp [uploadPosts, List.mem_filter]
  · intro hf hmem
    rw [uploadPosts, List.mem_filter] at hmem
    exact absurd hmem.2 (by simp [hf])

/-- Witness for C10: a PNG image is rejected by the dropzone and no upload
POST is issued for it. -/
theorem documentUpload_witness :
    (dropzoneAccepts (DroppedFile.mk "image/png" 10) = false) ∧
    (DroppedFile.mk "image/png" 10) ∉
      uploadPosts [DroppedFile.mk "image/png" 10] :=
  ⟨by decide,
    (documentUpload_accept_spec (DroppedFile.mk "image/png" 10)
      [DroppedFile.mk "image/png" 10]).2.2 (by decide)⟩
